import Mathlib

/-!
Verification development for the HabitTracker repository.

The repository's core (habit_tracker/time_utils.py, habit_manager.py,
analytics.py, the models and the db layer's pure fragments) is shallowly
embedded below. Python datetimes are modelled as wall-clock instants with an
optional fixed UTC offset; the ambient local timezone used by `astimezone()`
is passed explicitly as an offset `loc` (in minutes). Dates are Rata Die day
numbers (day 1 = 0001-01-01, a Monday); Python's `date.isocalendar()` is
modelled by the ISO-8601 rule (the ISO year/week of a date are determined by
the Thursday of its Monday-based week). Python exceptions are modelled by
`Except String`; the sqlite rows behind one habit are modelled as an explicit
`ManagerState` record threaded through the manager's operations, which return
the (possibly unchanged) state next to the result or the raised error.
-/

deriving instance DecidableEq for Except

namespace HabitTracker

/-! ## Python string primitives

Python's `str.strip()` and `str.lower()` are modelled over the character
list of a `String` (ASCII lowering; whitespace per `Char.isWhitespace`), so
that they compute by structural recursion. -/

/-- ASCII case lowering of one character. -/
def pyLowerChar (c : Char) : Char :=
  if 'A' ≤ c ∧ c ≤ 'Z' then Char.ofNat (c.toNat + 32) else c

/-- Model of Python `str.lower()`. -/
def pyLower (s : String) : String := ⟨s.data.map pyLowerChar⟩

/-- Model of Python `str.strip()`: drop leading and trailing whitespace. -/
def pyStrip (s : String) : String :=
  ⟨((s.data.dropWhile Char.isWhitespace).reverse.dropWhile Char.isWhitespace).reverse⟩

/-! ## Gregorian / ISO calendar on Rata Die day numbers -/

/-- Days strictly before January 1 of Gregorian year `y`, counted from the
Rata Die epoch (so `daysBefore 1 = 0`). `Int`'s `/` rounds like Python's
floor division on the positive divisors used throughout. -/
def daysBefore (y : Int) : Int :=
  365 * (y - 1) + (y - 1) / 4 - (y - 1) / 100 + (y - 1) / 400

/-- Gregorian year containing Rata Die day `d` (standard 400/100/4/1-year
cycle decomposition). -/
def yearOf (d : Int) : Int :=
  let d0 := d - 1
  let n400 := d0 / 146097
  let d1 := d0 % 146097
  let n100 := d1 / 36524
  let d2 := d1 % 36524
  let n4 := d2 / 1461
  let d3 := d2 % 1461
  let n1 := d3 / 365
  let y := 400 * n400 + 100 * n100 + 4 * n4 + n1
  if n100 = 4 ∨ n1 = 4 then y else y + 1

/-- Ordinal day (1-based) of Rata Die day `d` within its Gregorian year. -/
def ordOf (d : Int) : Int := d - daysBefore (yearOf d)

/-- Weekday of Rata Die day `d`, Monday = 0 .. Sunday = 6 (day 1 was a
Monday). -/
def weekday (d : Int) : Int := (d - 1) % 7

/-- The Monday of the (Monday-based) week containing `d`. -/
def weekStart (d : Int) : Int := d - weekday d

/-- The Thursday of the week containing `d`; ISO-8601 assigns the whole week
to that Thursday's Gregorian year. -/
def thursdayOf (d : Int) : Int := weekStart d + 3

/-- ISO week-year of Rata Die day `d`. -/
def isoYear (d : Int) : Int := yearOf (thursdayOf d)

/-- ISO week number (1-based) of Rata Die day `d`. -/
def isoWeek (d : Int) : Int := (ordOf (thursdayOf d) - 1) / 7 + 1

/-- Model of Python's `date.isocalendar()`. -/
def isocalendar (d : Int) : Int × Int × Int := (isoYear d, isoWeek d, weekday d + 1)

/-! ## datetime model -/

/-- Model of a Python `datetime`: wall-clock fields collapsed to a Rata Die
day plus seconds within the day, and the `tzinfo` as an optional fixed UTC
offset in minutes (`none` = naive). -/
structure PyDateTime where
  tzOffset : Option Int
  day : Int
  sec : Int
deriving DecidableEq, Repr

/-- Absolute time in seconds represented by an aware datetime (naive is
treated as offset 0; callers guard awareness first, as the source does). -/
def utcMoment (dt : PyDateTime) : Int :=
  dt.day * 86400 + dt.sec - (dt.tzOffset.getD 0) * 60

/-- Local calendar day of `dt` after `astimezone()` to the ambient local
timezone `loc` (minutes east of UTC). -/
def localDay (loc : Int) (dt : PyDateTime) : Int :=
  (utcMoment dt + loc * 60) / 86400

/-! ## time_utils.py -/

inductive Periodicity
  | daily
  | weekly
deriving DecidableEq, Repr

/-- Canonical string stored for a normalized periodicity. -/
def canon : Periodicity → String
  | .daily => "daily"
  | .weekly => "weekly"

/-- Translation of `time_utils.normalize_periodicity`. -/
def normalize_periodicity (value : String) : Except String Periodicity :=
  let v := pyLower (pyStrip value)
  if v = "daily" ∨ v = "day" then .ok .daily
  else if v = "weekly" ∨ v = "week" then .ok .weekly
  else .error ("Unsupported periodicity: " ++ value ++ " (use Daily or Weekly)")

/-- Period keys: the local ISO date for daily (the date string is modelled by
the date itself), the ISO (year, week) pair for weekly. -/
inductive PeriodKey
  | dailyKey (date : Int)
  | weeklyKey (isoYr isoWk : Int)
deriving DecidableEq, Repr

/-- Translation of `time_utils.period_key`. -/
def period_key (loc : Int) (dt : PyDateTime) (p : Periodicity) :
    Except String PeriodKey :=
  match dt.tzOffset with
  | none => .error "dt must be timezone-aware"
  | some _ =>
    match p with
    | .daily => .ok (.dailyKey (localDay loc dt))
    | .weekly => .ok (.weeklyKey (isoYear (localDay loc dt)) (isoWeek (localDay loc dt)))

/-- Translation of `time_utils.is_next_period`. For weekly the source adds 7
days (wall-clock) to `prev`'s local rendering and compares ISO week tuples. -/
def is_next_period (loc : Int) (prev curr : PyDateTime) (p : Periodicity) :
    Except String Bool :=
  match prev.tzOffset, curr.tzOffset with
  | none, _ => .error "datetimes must be timezone-aware"
  | _, none => .error "datetimes must be timezone-aware"
  | some _, some _ =>
    match p with
    | .daily => .ok (decide (localDay loc curr = localDay loc prev + 1))
    | .weekly =>
      .ok (decide
        ((isoYear (localDay loc curr), isoWeek (localDay loc curr))
          = (isoYear (localDay loc prev + 7), isoWeek (localDay loc prev + 7))))

/-! ## models and db state -/

/-- Translation of `models.habit.Habit`. -/
structure Habit where
  id : Int
  user_id : Int
  title : String
  description : String
  periodicity : String
  created_at : PyDateTime
  last_completed_at : Option PyDateTime := none
  streak : Int := 0
deriving DecidableEq, Repr

/-- One row of the `completions` table. -/
structure CompletionRow where
  id : Int
  habit_id : Int
  completed_at : PyDateTime
deriving DecidableEq, Repr

/-- The sqlite rows behind one habit: its record, its completion log in
insertion order, and the autoincrement counter for completion ids. -/
structure ManagerState where
  habit : Habit
  completions : List CompletionRow
  nextCompletionId : Int
deriving DecidableEq, Repr

/-- Sort key mirroring byte-wise comparison of `datetime.isoformat()` output:
wall-clock fields first, then the offset suffix (absent sorts first, then
`+HH:MM` ascending, then `-HH:MM` by absolute value — `'+' < '-'` as bytes). -/
def isoOffKey (o : Option Int) : Int × Int :=
  match o with
  | none => (0, 0)
  | some off => if 0 ≤ off then (1, off) else (2, -off)

/-- Strict "earlier ISO string" comparison of two stored timestamps. -/
def isoLtB (a b : PyDateTime) : Bool :=
  if a.day ≠ b.day then decide (a.day < b.day)
  else if a.sec ≠ b.sec then decide (a.sec < b.sec)
  else
    let ka := isoOffKey a.tzOffset
    let kb := isoOffKey b.tzOffset
    if ka.1 ≠ kb.1 then decide (ka.1 < kb.1) else decide (ka.2 < kb.2)

/-- Translation of `db.get_last_completion`: the stored timestamp greatest in
ISO-string order (`ORDER BY completed_at DESC LIMIT 1`). -/
def get_last_completion (rows : List CompletionRow) : Option PyDateTime :=
  rows.foldl
    (fun acc r =>
      match acc with
      | none => some r.completed_at
      | some m => if isoLtB m r.completed_at then some r.completed_at else some m)
    none

/-- Read-back coercion in `complete_habit`: a naive stored timestamp is
re-interpreted as UTC. -/
def coerceAware (dt : PyDateTime) : PyDateTime :=
  match dt.tzOffset with
  | none => { dt with tzOffset := some 0 }
  | some _ => dt

/-! ## habit_manager.py -/

/-- Translation of `HabitManager.create_habit` composed with
`db.insert_habit` (which normalizes the periodicity, raising on an invalid
one, and stores the canonical string, NULL last completion and streak 0). -/
def create_habit (user_id habit_id : Int) (title description periodicity : String)
    (created_at : PyDateTime) : Except String ManagerState :=
  match normalize_periodicity periodicity with
  | .error e => .error e
  | .ok p =>
    .ok
      { habit :=
          { id := habit_id, user_id := user_id, title := pyStrip title,
            description := pyStrip description, periodicity := canon p,
            created_at := created_at, last_completed_at := none, streak := 0 },
        completions := [], nextCompletionId := 1 }

/-- The title branch of `HabitManager.edit_habit`: a supplied, non-blank
title is trimmed and applied; an absent or blank one is ignored. -/
def edit_title (h : Habit) (title : Option String) : Habit :=
  match title with
  | some s => if pyStrip s ≠ "" then { h with title := pyStrip s } else h
  | none => h

/-- The description branch of `HabitManager.edit_habit`: any supplied
description (blank included) is trimmed and applied. -/
def edit_description (h : Habit) (description : Option String) : Habit :=
  match description with
  | some s => { h with description := pyStrip s }
  | none => h

/-- The periodicity branch of `HabitManager.edit_habit`: a supplied,
non-blank periodicity is normalized against the habit's previous one
(`origPer`, read before any assignment); if the normalized value changed,
the streak state is reset. Either normalization can raise. -/
def edit_periodicity (origPer : String) (h : Habit) (periodicity : Option String) :
    Except String Habit :=
  match periodicity with
  | some s =>
    if pyStrip s ≠ "" then
      match normalize_periodicity origPer with
      | .error e => .error e
      | .ok old_p =>
        let h3 := { h with periodicity := pyStrip s }
        match normalize_periodicity h3.periodicity with
        | .error e => .error e
        | .ok new_p =>
          .ok (if new_p ≠ old_p
               then { h3 with streak := 0, last_completed_at := none }
               else h3)
    else .ok h
  | none => .ok h

/-- Translation of `HabitManager.edit_habit` composed with `db.update_habit`
(which re-normalizes the periodicity before persisting and stores the
canonical string) and the re-read via `get_habit`. A raise anywhere before
the UPDATE leaves the stored state unchanged, which the pair
`(state, error)` renders. -/
def edit_habit (st : ManagerState) (title description periodicity : Option String) :
    ManagerState × Except String Habit :=
  match edit_periodicity st.habit.periodicity
      (edit_description (edit_title st.habit title) description) periodicity with
  | .error e => (st, .error e)
  | .ok h =>
    match normalize_periodicity h.periodicity with
    | .error e => (st, .error e)
    | .ok np =>
      let h' := { h with periodicity := canon np }
      ({ st with habit := h' }, .ok h')

/-- The source's resolution of the last completion inside `complete_habit`:
the habit record's cached field, else the most recent completion-log row
(naive stored values re-interpreted as UTC). -/
def resolveLast (st : ManagerState) : Option PyDateTime :=
  match st.habit.last_completed_at with
  | some l => some l
  | none => (get_last_completion st.completions).map coerceAware

/-- The streak branch of `complete_habit`, verbatim: absent last completion
gives 1; same period key keeps the streak; the immediately following period
adds 1; anything else resets to 1. -/
def streakResult (loc : Int) (st : ManagerState) (p : Periodicity)
    (completed_at : PyDateTime) : Except String Int :=
  match resolveLast st with
  | none => .ok 1
  | some l =>
    match period_key loc l p with
    | .error e => .error e
    | .ok k1 =>
      match period_key loc completed_at p with
      | .error e => .error e
      | .ok k2 =>
        if k1 = k2 then .ok st.habit.streak
        else
          match is_next_period loc l completed_at p with
          | .error e => .error e
          | .ok b => .ok (if b then st.habit.streak + 1 else 1)

/-- Translation of `HabitManager.complete_habit` composed with
`db.insert_completion` and `db.update_habit`. Every raise in the source
happens before the INSERT, so an error pairs with the unchanged state. -/
def complete_habit (loc : Int) (st : ManagerState) (completed_at : PyDateTime) :
    ManagerState × Except String CompletionRow :=
  match completed_at.tzOffset with
  | none => (st, .error "completed_at must be timezone-aware")
  | some _ =>
    match normalize_periodicity st.habit.periodicity with
    | .error e => (st, .error e)
    | .ok p =>
      match streakResult loc st p completed_at with
      | .error e => (st, .error e)
      | .ok newStreak =>
        let row : CompletionRow :=
          { id := st.nextCompletionId, habit_id := st.habit.id,
            completed_at := completed_at }
        let habit' :=
          { st.habit with
              periodicity := canon p,
              last_completed_at := some completed_at,
              streak := newStreak }
        ({ habit := habit', completions := st.completions ++ [row],
           nextCompletionId := st.nextCompletionId + 1 }, .ok row)

/-! ## analytics.py -/

/-- One step of the fold in `analytics.longest_streak_overall`. -/
def lso_step (acc : Option Habit × Int) (h : Habit) : Option Habit × Int :=
  if acc.2 < h.streak then (some h, h.streak) else acc

/-- Translation of `analytics.longest_streak_overall`. -/
def longest_streak_overall (habits : List Habit) : Option Habit × Int :=
  habits.foldl lso_step (none, 0)

/-! ## reachable manager states -/

/-- States reachable from habit creation through the facade's mutating
operations (a raising call leaves the state component unchanged). -/
inductive Reachable : ManagerState → Prop
  | create : ∀ user_id habit_id title description periodicity created_at st,
      create_habit user_id habit_id title description periodicity created_at = .ok st →
      Reachable st
  | edit : ∀ st t d p, Reachable st → Reachable (edit_habit st t d p).1
  | complete : ∀ loc st c, Reachable st → Reachable (complete_habit loc st c).1

/-! ## the spec's streak rule, as the claims word it -/

/-- The four-branch streak rule as the specification states it, applied to an
already-resolved last completion: absent gives 1, equal period keys keep the
old streak, the immediately following period adds 1, anything else resets
to 1. Stated independently of `complete_habit` so the two can be compared. -/
def claimStreak (loc : Int) (oldStreak : Int) (lastDt : Option PyDateTime)
    (completed_at : PyDateTime) (p : Periodicity) : Int :=
  match lastDt with
  | none => 1
  | some l =>
    if period_key loc l p = period_key loc completed_at p then oldStreak
    else if is_next_period loc l completed_at p = .ok true then oldStreak + 1
    else 1

/-! ## concrete sample data -/

/-- Timestamp 2021-01-04 (a Monday, Rata Die 737794) 10:00 UTC. -/
def exDtMon : PyDateTime := { tzOffset := some 0, day := 737794, sec := 36000 }

/-- Timestamp 2021-01-04 11:00 UTC (same local date as `exDtMon`). -/
def exDtMon2 : PyDateTime := { tzOffset := some 0, day := 737794, sec := 39600 }

/-- Timestamp 2021-01-05 10:00 UTC (the next day). -/
def exDtTue : PyDateTime := { tzOffset := some 0, day := 737795, sec := 36000 }

/-- Timestamp 2021-01-11 10:00 UTC (the Monday of the next ISO week). -/
def exDtNextMon : PyDateTime := { tzOffset := some 0, day := 737801, sec := 36000 }

/-- A naive timestamp (no timezone information). -/
def exDtNaive : PyDateTime := { tzOffset := none, day := 737794, sec := 36000 }

/-- A freshly created daily habit record. -/
def exHabitDaily : Habit :=
  { id := 1, user_id := 1, title := "water", description := "drink",
    periodicity := "daily", created_at := exDtMon,
    last_completed_at := none, streak := 0 }

/-- Manager state right after creating `exHabitDaily`. -/
def exStateFresh : ManagerState :=
  { habit := exHabitDaily, completions := [], nextCompletionId := 1 }

/-- State after completing the fresh daily habit at `exDtMon`. -/
def exC4st1 : ManagerState := (complete_habit 0 exStateFresh exDtMon).1

/-- State after then editing the habit's periodicity to weekly. -/
def exC4st2 : ManagerState := (edit_habit exC4st1 none none (some "weekly")).1

/-- State after then completing again in the same ISO week. -/
def exC4st3 : ManagerState := (complete_habit 0 exC4st2 exDtMon2).1

/-- A daily habit with one logged completion and streak 1. -/
def exStateStreak1 : ManagerState :=
  { habit := { exHabitDaily with last_completed_at := some exDtMon, streak := 1 },
    completions := [{ id := 1, habit_id := 1, completed_at := exDtMon }],
    nextCompletionId := 2 }

/-- Habits with streaks 3, 7 and 5 for the analytics samples. -/
def exHabitA : Habit := { exHabitDaily with id := 2, title := "A", streak := 3 }

def exHabitB : Habit := { exHabitDaily with id := 3, title := "B", streak := 7 }

def exHabitC : Habit := { exHabitDaily with id := 4, title := "C", streak := 5 }

/-! ## theorems -/

lemma weekStart_add_seven (d : Int) : weekStart (d + 7) = weekStart d + 7 := by
  unfold weekStart weekday; omega

lemma isoPair_eq_iff (a b : Int) :
    (isoYear a = isoYear b ∧ isoWeek a = isoWeek b) ↔ weekStart a = weekStart b := by
  constructor
  · rintro ⟨hy, hw⟩
    unfold isoYear at hy
    unfold isoWeek ordOf at hw
    rw [hy] at hw
    generalize daysBefore (yearOf (thursdayOf b)) = C at hw
    unfold thursdayOf weekStart weekday at hw
    unfold weekStart weekday
    omega
  · intro h
    unfold isoYear isoWeek ordOf thursdayOf
    rw [h]
    exact ⟨rfl, rfl⟩

/-- C2: for every pair of timezone-aware timestamps, `is_next_period` with
weekly periodicity returns true exactly when the ISO (week-year, week) tuple
of prev plus 7 wall-clock days equals curr's tuple — equivalently, exactly
when curr's local date lies in the ISO week immediately following prev's
(its week's Monday is prev's week's Monday plus 7), across week-year
boundaries included. -/
theorem C2_weekly_next_period (loc : Int) (prev curr : PyDateTime)
    (hp : prev.tzOffset ≠ none) (hc : curr.tzOffset ≠ none) :
    (is_next_period loc prev curr .weekly = .ok true
      ↔ (isoYear (localDay loc prev + 7), isoWeek (localDay loc prev + 7))
          = (isoYear (localDay loc curr), isoWeek (localDay loc curr)))
    ∧ (is_next_period loc prev curr .weekly = .ok true
      ↔ weekStart (localDay loc curr) = weekStart (localDay loc prev) + 7) := by
  obtain ⟨ptz, pd, ps⟩ := prev
  obtain ⟨ctz, cd, cs⟩ := curr
  cases ptz with
  | none => exact absurd rfl hp
  | some po =>
    cases ctz with
    | none => exact absurd rfl hc
    | some co =>
      constructor
      · simp only [is_next_period, Except.ok.injEq, decide_eq_true_eq]
        exact eq_comm
      · simp only [is_next_period, Except.ok.injEq, decide_eq_true_eq, Prod.mk.injEq]
        rw [isoPair_eq_iff, weekStart_add_seven]

/-- Witness for C2 at 2021-01-04 and 2021-01-11, both aware, in UTC. -/
theorem C2_witness :
    exDtMon.tzOffset ≠ none ∧ exDtNextMon.tzOffset ≠ none ∧
    ((is_next_period 0 exDtMon exDtNextMon .weekly = .ok true
      ↔ (isoYear (localDay 0 exDtMon + 7), isoWeek (localDay 0 exDtMon + 7))
          = (isoYear (localDay 0 exDtNextMon), isoWeek (localDay 0 exDtNextMon)))
    ∧ (is_next_period 0 exDtMon exDtNextMon .weekly = .ok true
      ↔ weekStart (localDay 0 exDtNextMon) = weekStart (localDay 0 exDtMon) + 7)) :=
  ⟨by decide, by decide,
    C2_weekly_next_period 0 exDtMon exDtNextMon (by decide) (by decide)⟩

/-- C7 (amended): `normalize_periodicity` returns daily exactly when the
input, after stripping surrounding whitespace and lowering case, is "daily"
or "day"; weekly exactly for "weekly" or "week"; and fails with the
unsupported-periodicity error for every other input, blank and empty
strings included. (The original claim omitted the whitespace-stripping.) -/
theorem C7_amended (s : String) :
    (normalize_periodicity s = .ok .daily
      ↔ (pyLower (pyStrip s) = "daily" ∨ pyLower (pyStrip s) = "day"))
    ∧ (normalize_periodicity s = .ok .weekly
      ↔ (pyLower (pyStrip s) = "weekly" ∨ pyLower (pyStrip s) = "week"))
    ∧ ((∃ e, normalize_periodicity s = .error e)
      ↔ ¬(pyLower (pyStrip s) = "daily" ∨ pyLower (pyStrip s) = "day"
          ∨ pyLower (pyStrip s) = "weekly" ∨ pyLower (pyStrip s) = "week")) := by
  simp only [normalize_periodicity]
  split_ifs with hA hB
  · rcases hA with h | h <;> rw [h] <;> simp
  · rcases hB with h | h <;> rw [h] <;> simp
  · refine ⟨by simp [hA], by simp [hB], ?_⟩
    simp only [Except.error.injEq, exists_eq, true_iff]
    tauto

/-- C7 counterexample: the input " daily " is accepted although it is not a
pure case-variant of "daily" or "day", so "fails for any other input"
as literally stated is false without the stripping amendment. -/
theorem C7_counterexample :
    normalize_periodicity " daily " = .ok .daily
    ∧ pyLower " daily " ≠ "daily" ∧ pyLower " daily " ≠ "day"
    ∧ pyLower " daily " ≠ "weekly" ∧ pyLower " daily " ≠ "week" :=
  ⟨rfl, by decide, by decide, by decide, by decide⟩

lemma lso_aux (l : List Habit) :
    ∀ acc : Option Habit × Int,
      ((∀ g ∈ l, g.streak ≤ acc.2) ∧ l.foldl lso_step acc = acc)
      ∨ (∃ pre h post,
          l = pre ++ h :: post
          ∧ l.foldl lso_step acc = (some h, h.streak)
          ∧ acc.2 < h.streak
          ∧ (∀ g ∈ pre, g.streak < h.streak)
          ∧ (∀ g ∈ post, g.streak ≤ h.streak)) := by
  induction l with
  | nil => exact fun acc => Or.inl ⟨by simp, rfl⟩
  | cons x xs ih =>
    intro acc
    by_cases hx : acc.2 < x.streak
    · have hstep : lso_step acc x = (some x, x.streak) := by simp [lso_step, hx]
      rcases ih (some x, x.streak) with ⟨hall, heq⟩ | ⟨pre, h, post, hsplit, heq, hlt, hpre, hpost⟩
      · right
        refine ⟨[], x, xs, rfl, ?_, hx, by simp, hall⟩
        rw [List.foldl_cons, hstep, heq]
      · right
        refine ⟨x :: pre, h, post, by simp [hsplit], ?_, lt_trans hx hlt, ?_, hpost⟩
        · rw [List.foldl_cons, hstep, heq]
        · intro g hg
          rcases List.mem_cons.mp hg with rfl | hg'
          · exact hlt
          · exact hpre g hg'
    · have hstep : lso_step acc x = acc := by simp [lso_step, hx]
      push_neg at hx
      rcases ih acc with ⟨hall, heq⟩ | ⟨pre, h, post, hsplit, heq, hlt, hpre, hpost⟩
      · left
        constructor
        · intro g hg
          rcases List.mem_cons.mp hg with rfl | hg'
          · exact hx
          · exact hall g hg'
        · rw [List.foldl_cons, hstep, heq]
      · right
        refine ⟨x :: pre, h, post, by simp [hsplit], ?_, hlt, ?_, hpost⟩
        · rw [List.foldl_cons, hstep, heq]
        · intro g hg
          rcases List.mem_cons.mp hg with rfl | hg'
          · exact lt_of_le_of_lt hx hlt
          · exact hpre g hg'

/-- C8 (amended): `longest_streak_overall` returns (none, 0) on the empty
list, and on any list containing a habit with positive streak it returns the
first habit attaining the maximum streak together with that streak (ties go
to the earlier item; earlier items are strictly smaller). A non-empty list
whose streaks are all non-positive yields no habit (see C10), which the
original claim excluded. -/
theorem C8_amended (habits : List Habit)
    (hx : ∃ g ∈ habits, 0 < g.streak) :
    longest_streak_overall ([] : List Habit) = (none, 0)
    ∧ ∃ pre h post,
        habits = pre ++ h :: post
        ∧ longest_streak_overall habits = (some h, h.streak)
        ∧ (∀ g ∈ pre, g.streak < h.streak)
        ∧ (∀ g ∈ habits, g.streak ≤ h.streak) := by
  refine ⟨rfl, ?_⟩
  rcases lso_aux habits (none, 0) with ⟨hall, _⟩ | ⟨pre, h, post, hsplit, heq, _, hpre, hpost⟩
  · obtain ⟨g, hg, hgs⟩ := hx
    exact absurd (hall g hg) (by omega)
  · refine ⟨pre, h, post, hsplit, heq, hpre, ?_⟩
    intro g hg
    rw [hsplit] at hg
    rcases List.mem_append.mp hg with hg' | hg'
    · exact le_of_lt (hpre g hg')
    · rcases List.mem_cons.mp hg' with rfl | hg''
      · exact le_refl _
      · exact hpost g hg''

/-- Witness for C8 on streaks [3, 7, 5]: the habit with streak 7 wins. -/
theorem C8_witness :
    (∃ g ∈ [exHabitA, exHabitB, exHabitC], 0 < g.streak)
    ∧ (longest_streak_overall ([] : List Habit) = (none, 0)
      ∧ ∃ pre h post,
          [exHabitA, exHabitB, exHabitC] = pre ++ h :: post
          ∧ longest_streak_overall [exHabitA, exHabitB, exHabitC] = (some h, h.streak)
          ∧ (∀ g ∈ pre, g.streak < h.streak)
          ∧ (∀ g ∈ [exHabitA, exHabitB, exHabitC], g.streak ≤ h.streak)) :=
  ⟨⟨exHabitA, by simp, by decide⟩,
    C8_amended [exHabitA, exHabitB, exHabitC] ⟨exHabitA, by simp, by decide⟩⟩

/-- C8 counterexample: a non-empty list whose only habit has streak 0
returns no habit rather than that habit. -/
theorem C8_counterexample :
    longest_streak_overall [exHabitDaily] = (none, 0)
    ∧ [exHabitDaily] ≠ ([] : List Habit) :=
  ⟨rfl, by decide⟩

/-- C10: whenever every habit in the list has streak ≤ 0,
`longest_streak_overall` returns no habit and streak 0, even on a non-empty
list. -/
theorem C10_all_nonpositive (habits : List Habit)
    (hall : ∀ g ∈ habits, g.streak ≤ 0) :
    longest_streak_overall habits = (none, 0) := by
  rcases lso_aux habits (none, 0) with ⟨_, heq⟩ | ⟨_, h, _, hsplit, _, hlt, _, _⟩
  · exact heq
  · have : h ∈ habits := by rw [hsplit]; simp
    exact absurd (hall h this) (by omega)

/-- Witness for C10 at a singleton list with streak 0. -/
theorem C10_witness :
    (∀ g ∈ [exHabitDaily], g.streak ≤ 0)
    ∧ longest_streak_overall [exHabitDaily] = (none, 0) :=
  ⟨by decide, C10_all_nonpositive [exHabitDaily] (by decide)⟩

lemma period_key_daily (loc : Int) (dt : PyDateTime) (o : Int)
    (h : dt.tzOffset = some o) :
    period_key loc dt .daily = .ok (.dailyKey (localDay loc dt)) := by
  unfold period_key; rw [h]

lemma period_key_weekly (loc : Int) (dt : PyDateTime) (o : Int)
    (h : dt.tzOffset = some o) :
    period_key loc dt .weekly
      = .ok (.weeklyKey (isoYear (localDay loc dt)) (isoWeek (localDay loc dt))) := by
  unfold period_key; rw [h]

lemma is_next_period_daily (loc : Int) (prev curr : PyDateTime) (o1 o2 : Int)
    (h1 : prev.tzOffset = some o1) (h2 : curr.tzOffset = some o2) :
    is_next_period loc prev curr .daily
      = .ok (decide (localDay loc curr = localDay loc prev + 1)) := by
  unfold is_next_period; rw [h1, h2]

lemma is_next_period_weekly' (loc : Int) (prev curr : PyDateTime) (o1 o2 : Int)
    (h1 : prev.tzOffset = some o1) (h2 : curr.tzOffset = some o2) :
    is_next_period loc prev curr .weekly
      = .ok (decide
          ((isoYear (localDay loc curr), isoWeek (localDay loc curr))
            = (isoYear (localDay loc prev + 7), isoWeek (localDay loc prev + 7)))) := by
  unfold is_next_period; rw [h1, h2]

lemma streakResult_eq (loc : Int) (st : ManagerState) (p : Periodicity) (c : PyDateTime)
    (hc : c.tzOffset ≠ none)
    (hl : ∀ l, resolveLast st = some l → l.tzOffset ≠ none) :
    streakResult loc st p c
      = .ok (claimStreak loc st.habit.streak (resolveLast st) c p) := by
  obtain ⟨co, hco⟩ := Option.ne_none_iff_exists'.mp hc
  cases hrl : resolveLast st with
  | none => simp only [streakResult, claimStreak, hrl]
  | some l =>
    obtain ⟨lo, hlo⟩ := Option.ne_none_iff_exists'.mp (hl l hrl)
    cases p with
    | daily =>
      simp only [streakResult, claimStreak, hrl,
        period_key_daily loc l lo hlo, period_key_daily loc c co hco,
        is_next_period_daily loc l c lo co hlo hco,
        Except.ok.injEq, PeriodKey.dailyKey.injEq]
      by_cases hk : localDay loc l = localDay loc c
      · simp [hk]
      · by_cases hnx : localDay loc c = localDay loc l + 1 <;> simp [hk, hnx]
    | weekly =>
      simp only [streakResult, claimStreak, hrl,
        period_key_weekly loc l lo hlo, period_key_weekly loc c co hco,
        is_next_period_weekly' loc l c lo co hlo hco,
        Except.ok.injEq, PeriodKey.weeklyKey.injEq, Prod.mk.injEq]
      by_cases hk : isoYear (localDay loc l) = isoYear (localDay loc c)
          ∧ isoWeek (localDay loc l) = isoWeek (localDay loc c)
      · simp [hk.1, hk.2]
      · by_cases hnx : isoYear (localDay loc c) = isoYear (localDay loc l + 7)
            ∧ isoWeek (localDay loc c) = isoWeek (localDay loc l + 7)
        · simp [hk, hnx.1, hnx.2]
          exact (apply_ite Except.ok _ _ _).symm
        · simp only [not_and] at hk
          rcases Classical.em (isoYear (localDay loc c) = isoYear (localDay loc l + 7)) with hy | hy
          · simp [hk, hy, fun hw => hnx ⟨hy, hw⟩]
            exact (apply_ite Except.ok _ _ _).symm
          · simp [hk, hy]
            exact (apply_ite Except.ok _ _ _).symm

/-- C1: for every aware completion timestamp, with the habit's stored
periodicity normalizing to `p` and the resolved last completion (the cached
field, else the most recent log row) aware when present, `complete_habit`
succeeds, appends the new log row, and stores exactly the streak given by
the spec's four-branch rule (`claimStreak`): absent last gives 1; equal
period keys keep the streak; the immediately following period adds 1;
anything else resets to 1. -/
theorem C1_streak_rule (loc : Int) (st : ManagerState) (c : PyDateTime) (p : Periodicity)
    (hc : c.tzOffset ≠ none)
    (hp : normalize_periodicity st.habit.periodicity = .ok p)
    (hl : ∀ l, resolveLast st = some l → l.tzOffset ≠ none) :
    (complete_habit loc st c).1.habit.streak
        = claimStreak loc st.habit.streak (resolveLast st) c p
    ∧ (complete_habit loc st c).2
        = .ok { id := st.nextCompletionId, habit_id := st.habit.id, completed_at := c } := by
  obtain ⟨co, hco⟩ := Option.ne_none_iff_exists'.mp hc
  have hsr := streakResult_eq loc st p c hc hl
  constructor <;> simp only [complete_habit, hco, hp, hsr]

/-- Witness for C1: completing a daily habit with streak 1 on the next
day. -/
theorem C1_witness :
    exDtTue.tzOffset ≠ none
    ∧ normalize_periodicity exStateStreak1.habit.periodicity = .ok .daily
    ∧ ((complete_habit 0 exStateStreak1 exDtTue).1.habit.streak
        = claimStreak 0 exStateStreak1.habit.streak (resolveLast exStateStreak1) exDtTue .daily
      ∧ (complete_habit 0 exStateStreak1 exDtTue).2
        = .ok { id := exStateStreak1.nextCompletionId, habit_id := exStateStreak1.habit.id,
                completed_at := exDtTue }) :=
  ⟨by decide, by decide,
    C1_streak_rule 0 exStateStreak1 exDtTue .daily (by decide) (by decide)
      (fun l h => by
        rw [show resolveLast exStateStreak1 = some exDtMon from rfl] at h
        injection h with h2
        rw [← h2]
        decide)⟩

/-- C6: for every habit state, completing with a naive (timezone-less)
timestamp fails with the naive-timestamp error and returns the state
unchanged — no log row is appended and no habit field changes. -/
theorem C6_naive_rejected (loc : Int) (st : ManagerState) (c : PyDateTime)
    (hn : c.tzOffset = none) :
    complete_habit loc st c = (st, .error "completed_at must be timezone-aware") := by
  simp only [complete_habit, hn]

/-- Witness for C6 at a concrete naive timestamp. -/
theorem C6_witness :
    exDtNaive.tzOffset = none
    ∧ complete_habit 0 exStateFresh exDtNaive
        = (exStateFresh, .error "completed_at must be timezone-aware") :=
  ⟨rfl, C6_naive_rejected 0 exStateFresh exDtNaive rfl⟩

lemma normalize_canon (p : Periodicity) : normalize_periodicity (canon p) = .ok p := by
  cases p <;> rfl

lemma edit_title_frame (h : Habit) (t : Option String) :
    (edit_title h t).streak = h.streak
    ∧ (edit_title h t).last_completed_at = h.last_completed_at
    ∧ (edit_title h t).periodicity = h.periodicity
    ∧ (edit_title h t).description = h.description
    ∧ (edit_title h t).id = h.id
    ∧ (edit_title h t).user_id = h.user_id
    ∧ (edit_title h t).created_at = h.created_at := by
  rcases t with _ | s
  · exact ⟨rfl, rfl, rfl, rfl, rfl, rfl, rfl⟩
  · simp only [edit_title]
    split_ifs <;> exact ⟨rfl, rfl, rfl, rfl, rfl, rfl, rfl⟩

lemma edit_description_frame (h : Habit) (d : Option String) :
    (edit_description h d).streak = h.streak
    ∧ (edit_description h d).last_completed_at = h.last_completed_at
    ∧ (edit_description h d).periodicity = h.periodicity
    ∧ (edit_description h d).title = h.title
    ∧ (edit_description h d).id = h.id
    ∧ (edit_description h d).user_id = h.user_id
    ∧ (edit_description h d).created_at = h.created_at := by
  rcases d with _ | s <;> exact ⟨rfl, rfl, rfl, rfl, rfl, rfl, rfl⟩

lemma edit_periodicity_blank (origPer : String) (h : Habit) (s : String)
    (hb : pyStrip s = "") : edit_periodicity origPer h (some s) = .ok h := by
  simp [edit_periodicity, hb]

lemma edit_periodicity_ok (origPer : String) (h : Habit) (s : String)
    (op np : Periodicity) (hnb : pyStrip s ≠ "")
    (hop : normalize_periodicity origPer = .ok op)
    (hnp : normalize_periodicity (pyStrip s) = .ok np) :
    edit_periodicity origPer h (some s)
      = .ok (if np ≠ op
             then { h with periodicity := pyStrip s, streak := 0, last_completed_at := none }
             else { h with periodicity := pyStrip s }) := by
  simp only [edit_periodicity, hop, hnp]
  rw [if_pos hnb]

lemma edit_periodicity_state (origPer : String) (h : Habit) (p : Option String)
    (h' : Habit) (heq : edit_periodicity origPer h p = .ok h') :
    (h'.streak = h.streak ∧ h'.last_completed_at = h.last_completed_at)
    ∨ (h'.streak = 0 ∧ h'.last_completed_at = none) := by
  rcases p with _ | s
  · injection heq with heq'
    rw [← heq']
    exact Or.inl ⟨rfl, rfl⟩
  · by_cases hb : pyStrip s = ""
    · rw [edit_periodicity_blank origPer h s hb] at heq
      injection heq with heq'
      rw [← heq']
      exact Or.inl ⟨rfl, rfl⟩
    · cases hop : normalize_periodicity origPer with
      | error e =>
        rw [show edit_periodicity origPer h (some s) = .error e from by
          simp only [edit_periodicity, hop]; rw [if_pos hb]] at heq
        cases heq
      | ok op =>
        cases hnp : normalize_periodicity (pyStrip s) with
        | error e =>
          rw [show edit_periodicity origPer h (some s) = .error e from by
            simp only [edit_periodicity, hop, hnp]; rw [if_pos hb]] at heq
          cases heq
        | ok np =>
          rw [edit_periodicity_ok origPer h s op np hb hop hnp] at heq
          injection heq with heq'
          rw [← heq']
          by_cases hne : np = op
          · simp [hne]
          · simp [hne]

lemma edit_habit_err (st : ManagerState) (t d p : Option String) (e : String)
    (h : edit_periodicity st.habit.periodicity
        (edit_description (edit_title st.habit t) d) p = .error e) :
    edit_habit st t d p = (st, .error e) := by
  simp only [edit_habit, h]

lemma edit_habit_ok (st : ManagerState) (t d p : Option String) (hh : Habit)
    (np : Periodicity)
    (h : edit_periodicity st.habit.periodicity
        (edit_description (edit_title st.habit t) d) p = .ok hh)
    (hn : normalize_periodicity hh.periodicity = .ok np) :
    edit_habit st t d p
      = ({ st with habit := { hh with periodicity := canon np } },
         .ok { hh with periodicity := canon np }) := by
  simp only [edit_habit, h, hn]

lemma edit_habit_err2 (st : ManagerState) (t d p : Option String) (hh : Habit)
    (e : String)
    (h : edit_periodicity st.habit.periodicity
        (edit_description (edit_title st.habit t) d) p = .ok hh)
    (hn : normalize_periodicity hh.periodicity = .error e) :
    edit_habit st t d p = (st, .error e) := by
  simp only [edit_habit, h, hn]

lemma edit_habit_state (st : ManagerState) (t d p : Option String) :
    ((edit_habit st t d p).1.habit.streak = st.habit.streak
      ∧ (edit_habit st t d p).1.habit.last_completed_at = st.habit.last_completed_at)
    ∨ ((edit_habit st t d p).1.habit.streak = 0
      ∧ (edit_habit st t d p).1.habit.last_completed_at = none) := by
  have ht := edit_title_frame st.habit t
  have hd := edit_description_frame (edit_title st.habit t) d
  cases hep : edit_periodicity st.habit.periodicity
      (edit_description (edit_title st.habit t) d) p with
  | error e =>
    rw [edit_habit_err st t d p e hep]
    exact Or.inl ⟨rfl, rfl⟩
  | ok hh =>
    have hst := edit_periodicity_state _ _ _ _ hep
    cases hn : normalize_periodicity hh.periodicity with
    | error e =>
      rw [edit_habit_err2 st t d p hh e hep hn]
      exact Or.inl ⟨rfl, rfl⟩
    | ok np =>
      rw [edit_habit_ok st t d p hh np hep hn]
      rcases hst with ⟨hs, hl⟩ | ⟨hs, hl⟩
      · left
        constructor
        · show hh.streak = st.habit.streak
          rw [hs, hd.1, ht.1]
        · show hh.last_completed_at = st.habit.last_completed_at
          rw [hl, hd.2.1, ht.2.1]
      · right
        exact ⟨hs, hl⟩

lemma complete_habit_state (loc : Int) (st : ManagerState) (c : PyDateTime) :
    (complete_habit loc st c).1 = st
    ∨ (complete_habit loc st c).1.habit.last_completed_at = some c := by
  cases hco : c.tzOffset with
  | none => left; simp only [complete_habit, hco]
  | some o =>
    cases hn : normalize_periodicity st.habit.periodicity with
    | error e => left; simp only [complete_habit, hco, hn]
    | ok p =>
      cases hs : streakResult loc st p c with
      | error e => left; simp only [complete_habit, hco, hn, hs]
      | ok n => right; simp only [complete_habit, hco, hn, hs]

lemma create_habit_state (u i : Int) (ti de pe : String) (ca : PyDateTime)
    (st : ManagerState) (h : create_habit u i ti de pe ca = .ok st) :
    st.habit.streak = 0 ∧ st.habit.last_completed_at = none := by
  cases hn : normalize_periodicity pe with
  | error e =>
    simp only [create_habit, hn] at h
    cases h
  | ok p =>
    simp only [create_habit, hn, Except.ok.injEq] at h
    rw [← h]
    exact ⟨rfl, rfl⟩

/-- C4 (amended): for every reachable habit state, a positive streak
implies `last_completed_at` is set. (The converse direction of the original
claim — streak 0 implies the field is absent — is refuted by
`C4_counterexample`: after a periodicity change the log survives, and a
completion falling in the same new-periodicity period as the logged one
stores streak 0 while setting `last_completed_at`.) -/
theorem C4_amended (st : ManagerState) (hr : Reachable st) :
    0 < st.habit.streak → st.habit.last_completed_at.isSome = true := by
  induction hr with
  | create u i ti de pe ca st' h =>
    intro hs
    have hcs := create_habit_state u i ti de pe ca st' h
    rw [hcs.1] at hs
    exact absurd hs (by omega)
  | edit st' t d p hr' ih =>
    intro hs
    rcases edit_habit_state st' t d p with ⟨h1, h2⟩ | ⟨h1, h2⟩
    · rw [h2]
      rw [h1] at hs
      exact ih hs
    · rw [h1] at hs
      exact absurd hs (by omega)
  | complete loc st' c hr' ih =>
    intro hs
    rcases complete_habit_state loc st' c with h | h
    · rw [h] at hs ⊢
      exact ih hs
    · rw [h]
      rfl

/-- C4 counterexample: create daily, complete on a Monday, edit to weekly,
complete again the same day — a reachable state with streak 0 and
`last_completed_at` set, refuting "streak == 0 implies last_completed_at is
absent". -/
theorem C4_counterexample :
    Reachable exC4st3
    ∧ exC4st3.habit.streak = 0
    ∧ exC4st3.habit.last_completed_at.isSome = true :=
  ⟨Reachable.complete 0 exC4st2 exDtMon2
      (Reachable.edit exC4st1 none none (some "weekly")
        (Reachable.complete 0 exStateFresh exDtMon
          (Reachable.create 1 1 "water" "drink" "daily" exDtMon exStateFresh (by decide)))),
    by decide, by decide⟩

/-- Witness for C4 at the state reached by one completion (streak 1). -/
theorem C4_witness :
    Reachable exC4st1
    ∧ 0 < exC4st1.habit.streak
    ∧ exC4st1.habit.last_completed_at.isSome = true :=
  have hr : Reachable exC4st1 :=
    Reachable.complete 0 exStateFresh exDtMon
      (Reachable.create 1 1 "water" "drink" "daily" exDtMon exStateFresh (by decide))
  ⟨hr, by decide, C4_amended exC4st1 hr (by decide)⟩

lemma resolveLast_of_last (st : ManagerState) (l : PyDateTime)
    (h : st.habit.last_completed_at = some l) : resolveLast st = some l := by
  simp only [resolveLast, h]

lemma complete_habit_eq (loc : Int) (st : ManagerState) (c : PyDateTime) (co : Int)
    (p : Periodicity) (hco : c.tzOffset = some co)
    (hp : normalize_periodicity st.habit.periodicity = .ok p)
    (hl : ∀ l, resolveLast st = some l → l.tzOffset ≠ none) :
    complete_habit loc st c
      = ({ habit :=
             { st.habit with
                 periodicity := canon p,
                 last_completed_at := some c,
                 streak := claimStreak loc st.habit.streak (resolveLast st) c p },
           completions := st.completions
             ++ [{ id := st.nextCompletionId, habit_id := st.habit.id, completed_at := c }],
           nextCompletionId := st.nextCompletionId + 1 },
         .ok { id := st.nextCompletionId, habit_id := st.habit.id, completed_at := c }) := by
  have hsr := streakResult_eq loc st p c (by rw [hco]; simp) hl
  simp only [complete_habit, hco, hp, hsr]

/-- C3: completing a daily habit twice at aware timestamps on the same
local calendar date succeeds both times, leaves the streak after the second
call equal to the streak after the first, and appends exactly two distinct
log rows, each recording its own timestamp. -/
theorem C3_same_day_idempotent (loc : Int) (st : ManagerState) (t1 t2 : PyDateTime)
    (h1 : t1.tzOffset ≠ none) (h2 : t2.tzOffset ≠ none)
    (hp : normalize_periodicity st.habit.periodicity = .ok .daily)
    (hl : ∀ l, resolveLast st = some l → l.tzOffset ≠ none)
    (hday : localDay loc t1 = localDay loc t2) :
    (∃ r1, (complete_habit loc st t1).2 = .ok r1)
    ∧ (∃ r2, (complete_habit loc (complete_habit loc st t1).1 t2).2 = .ok r2)
    ∧ (complete_habit loc (complete_habit loc st t1).1 t2).1.habit.streak
        = (complete_habit loc st t1).1.habit.streak
    ∧ (complete_habit loc (complete_habit loc st t1).1 t2).1.completions
        = st.completions
          ++ [{ id := st.nextCompletionId, habit_id := st.habit.id, completed_at := t1 },
              { id := st.nextCompletionId + 1, habit_id := st.habit.id, completed_at := t2 }]
    ∧ ({ id := st.nextCompletionId, habit_id := st.habit.id, completed_at := t1 } : CompletionRow)
        ≠ { id := st.nextCompletionId + 1, habit_id := st.habit.id, completed_at := t2 } := by
  obtain ⟨o1, ho1⟩ := Option.ne_none_iff_exists'.mp h1
  obtain ⟨o2, ho2⟩ := Option.ne_none_iff_exists'.mp h2
  have hc1 := complete_habit_eq loc st t1 o1 .daily ho1 hp hl
  have hlast1 : (complete_habit loc st t1).1.habit.last_completed_at = some t1 := by rw [hc1]
  have hper1 : (complete_habit loc st t1).1.habit.periodicity = canon .daily := by rw [hc1]
  have hrl1 := resolveLast_of_last _ _ hlast1
  have hl2 : ∀ l, resolveLast (complete_habit loc st t1).1 = some l → l.tzOffset ≠ none := by
    intro l hx
    rw [hrl1] at hx
    injection hx with hx'
    rw [← hx', ho1]
    simp
  have hp2 : normalize_periodicity (complete_habit loc st t1).1.habit.periodicity
      = .ok .daily := by
    rw [hper1, normalize_canon]
  have hc2 := complete_habit_eq loc (complete_habit loc st t1).1 t2 o2 .daily ho2 hp2 hl2
  have hck : claimStreak loc (complete_habit loc st t1).1.habit.streak
      (resolveLast (complete_habit loc st t1).1) t2 .daily
      = (complete_habit loc st t1).1.habit.streak := by
    rw [hrl1]
    simp only [claimStreak, period_key_daily loc t1 o1 ho1, period_key_daily loc t2 o2 ho2,
      hday]
    simp
  rw [hck] at hc2
  refine ⟨⟨_, by rw [hc1]⟩, ⟨_, by rw [hc2]⟩, ?_, ?_, ?_⟩
  · rw [hc2]
  · rw [hc2, hc1]
    simp
  · simp only [ne_eq, CompletionRow.mk.injEq, not_and]
    intro hid
    omega

/-- Witness for C3 at 10:00 and 11:00 of the same UTC day. -/
theorem C3_witness :
    exDtMon.tzOffset ≠ none
    ∧ exDtMon2.tzOffset ≠ none
    ∧ normalize_periodicity exStateFresh.habit.periodicity = .ok .daily
    ∧ localDay 0 exDtMon = localDay 0 exDtMon2
    ∧ ((∃ r1, (complete_habit 0 exStateFresh exDtMon).2 = .ok r1)
      ∧ (∃ r2, (complete_habit 0 (complete_habit 0 exStateFresh exDtMon).1 exDtMon2).2 = .ok r2)
      ∧ (complete_habit 0 (complete_habit 0 exStateFresh exDtMon).1 exDtMon2).1.habit.streak
          = (complete_habit 0 exStateFresh exDtMon).1.habit.streak
      ∧ (complete_habit 0 (complete_habit 0 exStateFresh exDtMon).1 exDtMon2).1.completions
          = exStateFresh.completions
            ++ [{ id := exStateFresh.nextCompletionId, habit_id := exStateFresh.habit.id,
                  completed_at := exDtMon },
                { id := exStateFresh.nextCompletionId + 1, habit_id := exStateFresh.habit.id,
                  completed_at := exDtMon2 }]
      ∧ ({ id := exStateFresh.nextCompletionId, habit_id := exStateFresh.habit.id,
           completed_at := exDtMon } : CompletionRow)
          ≠ { id := exStateFresh.nextCompletionId + 1, habit_id := exStateFresh.habit.id,
              completed_at := exDtMon2 }) :=
  ⟨by decide, by decide, by decide, by decide,
    C3_same_day_idempotent 0 exStateFresh exDtMon exDtMon2 (by decide) (by decide) (by decide)
      (fun l hx => by
        rw [show resolveLast exStateFresh = none from rfl] at hx
        cases hx)
      (by decide)⟩

/-- C5: an edit supplying a non-blank periodicity that normalizes
differently from the current one resets streak to 0 and clears
`last_completed_at`; one normalizing identically (case or synonym change)
leaves both unchanged; in all cases the completion log is untouched and the
edit succeeds. -/
theorem C5_periodicity_change (st : ManagerState) (t d : Option String) (s : String)
    (op np : Periodicity)
    (hnb : pyStrip s ≠ "")
    (hop : normalize_periodicity st.habit.periodicity = .ok op)
    (hnp : normalize_periodicity (pyStrip s) = .ok np) :
    (edit_habit st t d (some s)).1.completions = st.completions
    ∧ (∃ hh, (edit_habit st t d (some s)).2 = .ok hh)
    ∧ (np ≠ op →
        (edit_habit st t d (some s)).1.habit.streak = 0
        ∧ (edit_habit st t d (some s)).1.habit.last_completed_at = none)
    ∧ (np = op →
        (edit_habit st t d (some s)).1.habit.streak = st.habit.streak
        ∧ (edit_habit st t d (some s)).1.habit.last_completed_at
            = st.habit.last_completed_at) := by
  obtain ⟨hts, htl, htp, htd, hti, htu, htc⟩ := edit_title_frame st.habit t
  obtain ⟨hds, hdl, hdp, hdt, hdi, hdu, hdc⟩ :=
    edit_description_frame (edit_title st.habit t) d
  have hep := edit_periodicity_ok st.habit.periodicity
    (edit_description (edit_title st.habit t) d) s op np hnb hop hnp
  by_cases hne : np = op
  · have hep' : edit_periodicity st.habit.periodicity
        (edit_description (edit_title st.habit t) d) (some s)
        = .ok { edit_description (edit_title st.habit t) d with
                  periodicity := pyStrip s } := by
      rw [hep]
      simp [hne]
    have heh := edit_habit_ok st t d (some s) _ np hep' hnp
    rw [heh]
    refine ⟨rfl, ⟨_, rfl⟩, fun hcon => absurd hne hcon, fun _ => ⟨?_, ?_⟩⟩
    · exact hds.trans hts
    · exact hdl.trans htl
  · have hep' : edit_periodicity st.habit.periodicity
        (edit_description (edit_title st.habit t) d) (some s)
        = .ok { edit_description (edit_title st.habit t) d with
                  periodicity := pyStrip s, streak := 0, last_completed_at := none } := by
      rw [hep]
      simp [hne]
    have heh := edit_habit_ok st t d (some s) _ np hep' hnp
    rw [heh]
    exact ⟨rfl, ⟨_, rfl⟩, fun _ => ⟨rfl, rfl⟩, fun h' => absurd h' hne⟩

/-- Witness for C5: editing a daily habit to "Weekly". -/
theorem C5_witness :
    pyStrip "Weekly" ≠ ""
    ∧ normalize_periodicity exStateStreak1.habit.periodicity = .ok .daily
    ∧ normalize_periodicity (pyStrip "Weekly") = .ok .weekly
    ∧ ((edit_habit exStateStreak1 none none (some "Weekly")).1.completions
        = exStateStreak1.completions
      ∧ (∃ hh, (edit_habit exStateStreak1 none none (some "Weekly")).2 = .ok hh)
      ∧ (Periodicity.weekly ≠ Periodicity.daily →
          (edit_habit exStateStreak1 none none (some "Weekly")).1.habit.streak = 0
          ∧ (edit_habit exStateStreak1 none none (some "Weekly")).1.habit.last_completed_at
              = none)
      ∧ (Periodicity.weekly = Periodicity.daily →
          (edit_habit exStateStreak1 none none (some "Weekly")).1.habit.streak
            = exStateStreak1.habit.streak
          ∧ (edit_habit exStateStreak1 none none (some "Weekly")).1.habit.last_completed_at
              = exStateStreak1.habit.last_completed_at)) :=
  ⟨by decide, by decide, by decide,
    C5_periodicity_change exStateStreak1 none none "Weekly" .daily .weekly
      (by decide) (by decide) (by decide)⟩

lemma edit_title_blank_eq (h : Habit) (s : String) (hb : pyStrip s = "") :
    edit_title h (some s) = h := by
  simp [edit_title, hb]

lemma edit_periodicity_blank_eq (origPer : String) (h : Habit) (s : String)
    (hb : pyStrip s = "") : edit_periodicity origPer h (some s) = .ok h := by
  simp [edit_periodicity, hb]

/-- C9 (amended): for a habit whose stored periodicity is canonical (as
every created or updated record's is), edit is partial: omitted arguments
leave their attribute unchanged; a blank title or periodicity is ignored; a
supplied description (blank included) is applied trimmed; id, user id,
creation time and the completion log never change; and streak and
`last_completed_at` are unchanged except that a periodicity edit whose
normalized value differs resets them — the exception the original claim's
"all attributes not named are unchanged" missed. -/
theorem C9_amended (st : ManagerState) (t d p : Option String) (q : Periodicity)
    (hq : st.habit.periodicity = canon q) :
    ((edit_habit st t d p).1.completions = st.completions
      ∧ (edit_habit st t d p).1.habit.id = st.habit.id
      ∧ (edit_habit st t d p).1.habit.user_id = st.habit.user_id
      ∧ (edit_habit st t d p).1.habit.created_at = st.habit.created_at)
    ∧ (t = none → (edit_habit st t d p).1.habit.title = st.habit.title)
    ∧ (∀ s, t = some s → pyStrip s = "" →
        (edit_habit st t d p).1.habit.title = st.habit.title)
    ∧ (d = none → (edit_habit st t d p).1.habit.description = st.habit.description)
    ∧ (∀ s, d = some s → (∃ hh, (edit_habit st t d p).2 = .ok hh) →
        (edit_habit st t d p).1.habit.description = pyStrip s)
    ∧ (p = none →
        (edit_habit st t d p).1.habit.periodicity = st.habit.periodicity
        ∧ (edit_habit st t d p).1.habit.streak = st.habit.streak
        ∧ (edit_habit st t d p).1.habit.last_completed_at = st.habit.last_completed_at)
    ∧ (∀ s, p = some s → pyStrip s = "" →
        (edit_habit st t d p).1.habit.periodicity = st.habit.periodicity
        ∧ (edit_habit st t d p).1.habit.streak = st.habit.streak
        ∧ (edit_habit st t d p).1.habit.last_completed_at = st.habit.last_completed_at)
    ∧ (∀ s np, p = some s → pyStrip s ≠ "" →
        normalize_periodicity (pyStrip s) = .ok np → np = q →
        (edit_habit st t d p).1.habit.streak = st.habit.streak
        ∧ (edit_habit st t d p).1.habit.last_completed_at = st.habit.last_completed_at)
    ∧ (∀ s np, p = some s → pyStrip s ≠ "" →
        normalize_periodicity (pyStrip s) = .ok np → np ≠ q →
        (edit_habit st t d p).1.habit.streak = 0
        ∧ (edit_habit st t d p).1.habit.last_completed_at = none) := by
  obtain ⟨hts, htl, htp, htd, hti, htu, htc⟩ := edit_title_frame st.habit t
  obtain ⟨hds, hdl, hdp, hdt, hdi, hdu, hdc⟩ :=
    edit_description_frame (edit_title st.habit t) d
  have hop : normalize_periodicity st.habit.periodicity = .ok q := by
    rw [hq]
    exact normalize_canon q
  have hper2 : (edit_description (edit_title st.habit t) d).periodicity = canon q := by
    rw [hdp, htp, hq]
  have hnh2 : normalize_periodicity
      (edit_description (edit_title st.habit t) d).periodicity = .ok q := by
    rw [hper2]
    exact normalize_canon q
  have htitle : ∀ hh : Habit,
      hh.title = (edit_description (edit_title st.habit t) d).title →
      ((t = none → hh.title = st.habit.title)
        ∧ (∀ s, t = some s → pyStrip s = "" → hh.title = st.habit.title)) := by
    intro hh hht
    constructor
    · intro ht0
      subst ht0
      exact hht.trans hdt
    · intro s ht0 hbs
      subst ht0
      rw [hht, hdt, edit_title_blank_eq st.habit s hbs]
  rcases p with _ | s3
  · -- periodicity omitted
    have heh := edit_habit_ok st t d none
      (edit_description (edit_title st.habit t) d) q rfl hnh2
    rw [heh]
    obtain ⟨hB, hC⟩ := htitle _ rfl
    refine ⟨⟨rfl, hdi.trans hti, hdu.trans htu, hdc.trans htc⟩, hB, hC, ?_, ?_, ?_, ?_, ?_, ?_⟩
    · intro hd0
      subst hd0
      exact htd
    · intro s hd0 _
      subst hd0
      rfl
    · exact fun _ => ⟨hq.symm, hds.trans hts, hdl.trans htl⟩
    · intro s hcon
      cases hcon
    · intro s np hcon
      cases hcon
    · intro s np hcon
      cases hcon
  · by_cases hb : pyStrip s3 = ""
    · -- blank periodicity string supplied
      have hep := edit_periodicity_blank_eq st.habit.periodicity
        (edit_description (edit_title st.habit t) d) s3 hb
      have heh := edit_habit_ok st t d (some s3)
        (edit_description (edit_title st.habit t) d) q hep hnh2
      rw [heh]
      obtain ⟨hB, hC⟩ := htitle _ rfl
      refine ⟨⟨rfl, hdi.trans hti, hdu.trans htu, hdc.trans htc⟩, hB, hC, ?_, ?_, ?_, ?_,
        ?_, ?_⟩
      · intro hd0
        subst hd0
        exact htd
      · intro s hd0 _
        subst hd0
        rfl
      · intro hcon
        cases hcon
      · exact fun s _ _ => ⟨hq.symm, hds.trans hts, hdl.trans htl⟩
      · intro s np heq hbs _
        injection heq with heq'
        subst heq'
        exact absurd hb hbs
      · intro s np heq hbs _
        injection heq with heq'
        subst heq'
        exact absurd hb hbs
    · cases hnp3 : normalize_periodicity (pyStrip s3) with
      | error e =>
        have hep : edit_periodicity st.habit.periodicity
            (edit_description (edit_title st.habit t) d) (some s3) = .error e := by
          simp only [edit_periodicity, hop, hnp3]
          rw [if_pos hb]
        have heh := edit_habit_err st t d (some s3) e hep
        rw [heh]
        refine ⟨⟨rfl, rfl, rfl, rfl⟩, fun _ => rfl, fun s _ _ => rfl, fun _ => rfl,
          ?_, (fun hcon => nomatch hcon), fun s _ _ => ⟨rfl, rfl, rfl⟩, ?_, ?_⟩
        · intro s hd0 hex
          obtain ⟨hh, hcon⟩ := hex
          cases hcon
        · intro s np heq hbs hn0
          injection heq with heq'
          subst heq'
          rw [hnp3] at hn0
          cases hn0
        · intro s np heq hbs hn0
          injection heq with heq'
          subst heq'
          rw [hnp3] at hn0
          cases hn0
      | ok np3 =>
        have hep := edit_periodicity_ok st.habit.periodicity
          (edit_description (edit_title st.habit t) d) s3 q np3 hb hop hnp3
        by_cases hne : np3 = q
        · have hep' : edit_periodicity st.habit.periodicity
              (edit_description (edit_title st.habit t) d) (some s3)
              = .ok { edit_description (edit_title st.habit t) d with
                        periodicity := pyStrip s3 } := by
            rw [hep]
            simp [hne]
          have heh := edit_habit_ok st t d (some s3) _ np3 hep' hnp3
          rw [heh]
          obtain ⟨hB, hC⟩ := htitle _ rfl
          refine ⟨⟨rfl, hdi.trans hti, hdu.trans htu, hdc.trans htc⟩, hB, hC, ?_, ?_,
            (fun hcon => nomatch hcon), ?_, ?_, ?_⟩
          · intro hd0
            subst hd0
            exact htd
          · intro s hd0 _
            subst hd0
            rfl
          · intro s heq hbs
            injection heq with heq'
            subst heq'
            exact absurd hbs hb
          · exact fun s np _ _ _ _ => ⟨hds.trans hts, hdl.trans htl⟩
          · intro s np heq hbs hn0 hnq
            injection heq with heq'
            subst heq'
            rw [hnp3] at hn0
            injection hn0 with hn0'
            subst hn0'
            exact absurd hne hnq
        · have hep' : edit_periodicity st.habit.periodicity
              (edit_description (edit_title st.habit t) d) (some s3)
              = .ok { edit_description (edit_title st.habit t) d with
                        periodicity := pyStrip s3, streak := 0,
                        last_completed_at := none } := by
            rw [hep]
            simp [hne]
          have heh := edit_habit_ok st t d (some s3) _ np3 hep' hnp3
          rw [heh]
          obtain ⟨hB, hC⟩ := htitle _ rfl
          refine ⟨⟨rfl, hdi.trans hti, hdu.trans htu, hdc.trans htc⟩, hB, hC, ?_, ?_,
            (fun hcon => nomatch hcon), ?_, ?_, ?_⟩
          · intro hd0
            subst hd0
            exact htd
          · intro s hd0 _
            subst hd0
            rfl
          · intro s heq hbs
            injection heq with heq'
            subst heq'
            exact absurd hbs hb
          · intro s np heq hbs hn0 hnq
            injection heq with heq'
            subst heq'
            rw [hnp3] at hn0
            injection hn0 with hn0'
            subst hn0'
            exact absurd hnq hne
          · exact fun s np _ _ _ _ => ⟨rfl, rfl⟩

/-- C9 counterexample: an edit supplying only a periodicity changes streak
(1 to 0) and `last_completed_at` (set to absent), although neither
attribute is named by a supplied argument. -/
theorem C9_counterexample :
    (∃ hh, (edit_habit exStateStreak1 none none (some "weekly")).2 = .ok hh)
    ∧ exStateStreak1.habit.streak = 1
    ∧ exStateStreak1.habit.last_completed_at = some exDtMon
    ∧ (edit_habit exStateStreak1 none none (some "weekly")).1.habit.streak = 0
    ∧ (edit_habit exStateStreak1 none none (some "weekly")).1.habit.last_completed_at
        = none :=
  ⟨⟨{ exStateStreak1.habit with
        periodicity := "weekly",
        streak := 0,
        last_completed_at := none },
    by decide⟩, by decide, by decide, by decide, by decide⟩

/-- Witness for C9 at an edit with all arguments omitted. -/
theorem C9_witness :
    exStateStreak1.habit.periodicity = canon .daily
    ∧ (edit_habit exStateStreak1 none none none).1.completions = exStateStreak1.completions
    ∧ ((edit_habit exStateStreak1 none none none).1.habit.periodicity
          = exStateStreak1.habit.periodicity
      ∧ (edit_habit exStateStreak1 none none none).1.habit.streak
          = exStateStreak1.habit.streak
      ∧ (edit_habit exStateStreak1 none none none).1.habit.last_completed_at
          = exStateStreak1.habit.last_completed_at) :=
  ⟨rfl, (C9_amended exStateStreak1 none none none .daily rfl).1.1,
    (C9_amended exStateStreak1 none none none .daily rfl).2.2.2.2.2.1 rfl⟩

end HabitTracker
